import Mathlib

/-!
# TaskManagement: the state logic of `src/src/App.jsx`

A shallow embedding of the `App` component of `App.jsx`: the filtered view
(`filteredTasks`, lines 311-313), the drag handler (`onDragEnd`, lines
296-308), the submit handler and the repository operations (lines 121-263),
and the status switch handler (`onChange`, lines 315-317).

JavaScript arrays are lists.  An array slot that holds `undefined` is `none`,
a slot that holds a value is `some v`; this only matters for `arrayMove`,
which can write `undefined` into its result.
-/

namespace TaskManagement

/-! ## Data model -/

/-- A task record as the backend returns it and as the table renders it
(`row_id`, `title`, `detail`, `startdate`, `enddate`, `status`). -/
structure Task where
  row_id : Nat
  title : String
  detail : String
  startdate : Nat
  enddate : Nat
  status : Nat
  deriving DecidableEq, Repr

/-! ## JavaScript built-ins used by the list controller -/

/-- The method `String.prototype.includes`: `s.includes(q)` holds when `q` occurs in `s`
as a contiguous run of characters (the empty string occurs everywhere). -/
def includes (s q : String) : Bool :=
  decide (q.data <:+: s.data)

/-- The method `Array.prototype.findIndex`: the index of the first element satisfying
`p`, or `-1` when there is none. -/
def findIndex {α : Type} (p : α → Bool) (xs : List α) : Int :=
  if xs.findIdx p < xs.length then (xs.findIdx p : Int) else -1

/-- The method `Array.prototype.splice(start, deleteCount, ...items)` on an array `arr`:
returns the removed elements and the array after the call.  A negative
`start` counts from the end; both arguments are clamped to the array. -/
def splice {β : Type} (arr : List β) (start deleteCount : Int) (items : List β) :
    List β × List β :=
  let len : Int := arr.length
  let actualStart : Nat :=
    (if start < 0 then max (len + start) 0 else min start len).toNat
  let actualDeleteCount : Nat :=
    (min (max deleteCount 0) (len - actualStart)).toNat
  ((arr.drop actualStart).take actualDeleteCount,
    arr.take actualStart ++ items ++ arr.drop (actualStart + actualDeleteCount))

/-- The function `arrayMove(array, from, to)` of `@dnd-kit/sortable`:

```
const newArray = array.slice();
newArray.splice(to < 0 ? newArray.length + to : to, 0,
                newArray.splice(from, 1)[0]);
return newArray;
```

The first argument of the outer `splice` is evaluated before the inner
`splice` removes an element, so `newArray.length` is the original length.
`newArray.splice(from, 1)[0]` is `undefined` when nothing was removed.
The parameters `from` and `to` are `fromIdx` and `toIdx` here. -/
def arrayMove {α : Type} (array : List α) (fromIdx toIdx : Int) : List (Option α) :=
  let newArray : List (Option α) := array.map some
  let start : Int := if toIdx < 0 then (newArray.length : Int) + toIdx else toIdx
  let removed := splice newArray fromIdx 1 []
  let item : Option α := removed.1.head?.join
  (splice removed.2 start 0 [item]).2

/-! ## The list controller of `App.jsx` -/

/-- The filtered view, `App.jsx` lines 311-313:
`tasks.filter((task) => task.title.toLowerCase().includes(searchQuery.toLowerCase()))`.
`toLowerCase` is the runtime's `String.prototype.toLowerCase`. -/
def filteredTasks (toLowerCase : String → String) (searchQuery : String)
    (tasks : List Task) : List Task :=
  tasks.filter (fun task => includes (toLowerCase task.title) (toLowerCase searchQuery))

/-- The drag handler, `App.jsx` lines 296-308, as a function of the task list
it is applied to.  `active` is `active.id`; `over` is `over?.id`, which is
`none` when the drag ended with no target (`over` is `null`).  When the guard
`active.id !== over?.id` fails, `setTasks` is not called and the list stays
as it is. -/
def onDragEnd (prevState : List Task) (active : Nat) (over : Option Nat) :
    List (Option Task) :=
  if some active ≠ over then
    let activeIndex := findIndex (fun record => decide (some record.row_id = some active)) prevState
    let overIndex := findIndex (fun record => decide (some record.row_id = over)) prevState
    arrayMove prevState activeIndex overIndex
  else
    prevState.map some

/-! ## Application state and the repository operations

The component state of `App` (lines 107-114) is a record.  An asynchronous
operation is a function of the state it runs in and of the outcome of its
backend call; it returns the state after the call has settled and the effects
it produced, in program order.  Operations that are pending at the same time
are not interleaved here. -/

/-- The values held by the antd form instance `form` (fields `title`, `detail`
and `dueDate` of lines 349-380).  `none` is `undefined`; `dueDate` is the
array given by the range picker (`[]` after the form was blanked). -/
structure FormFields where
  title : Option String
  detail : Option String
  dueDate : Option (List Nat)
  deriving DecidableEq, Repr

/-- The request body of create and update after `dueDate` was split into
`startDate` and `endDate` and deleted (lines 157-160 and 181-184). -/
structure TaskPayload where
  title : Option String
  detail : Option String
  startDate : Option Nat
  endDate : Option Nat
  deriving DecidableEq, Repr

/-- The component state of `App`, lines 107-114.  `selectedTasks` starts as
`[]`, which has no `row_id`; that value is `none`. -/
structure AppState where
  tasks : List Task
  isModalOpen : Bool
  openConfirmModal : Bool
  loading : Bool
  form : FormFields
  selectedTasks : Option Task
  formState : String
  searchQuery : String
  deriving DecidableEq, Repr

/-- The backend calls made through `api`. -/
inductive Request where
  /-- The call `api.get("api/tasks")`. -/
  | getTasks
  /-- The call `api.post("api/task", values)`. -/
  | postTask (body : TaskPayload)
  /-- The call `api.put` on `/api/tasks/detail/` followed by `selectedTasks.row_id`. -/
  | putDetail (id : Option Nat) (body : TaskPayload)
  /-- The call `api.put` on `/api/tasks/status/` followed by `id`, with the status as body. -/
  | putStatus (id : Nat) (status : Nat)
  /-- The call `api.delete` on `api/tasks/` followed by `id`. -/
  | deleteTask (id : Nat)
  deriving DecidableEq, Repr

/-- What an operation does besides changing the state. -/
inductive Effect where
  /-- A backend call was issued. -/
  | request (r : Request)
  /-- The call `notify(text)`, that is `toast.success(text)`. -/
  | notify (text : String)
  /-- A call of `console.log`, tagged with what is logged. -/
  | log (what : String)
  /-- The call `setTimeout(() => getTask(), ms)`. -/
  | setTimeoutGetTask (ms : Nat)
  /-- An uncaught `TypeError` outside any `try` (the async function rejects). -/
  | typeError
  deriving DecidableEq, Repr

/-- The outcome of a backend call: `success data` when the awaited call
resolves with a body whose `data` field is `data`, `failure` when it rejects
(network error, timeout, or an error status). -/
inductive Response (α : Type) where
  | success (data : α)
  | failure
  deriving DecidableEq, Repr

/-- The texts shown by `notify` among the effects. -/
def notifications (es : List Effect) : List String :=
  es.filterMap (fun e => match e with
    | Effect.notify text => some text
    | _ => none)

/-- The backend calls among the effects. -/
def requests (es : List Effect) : List Request :=
  es.filterMap (fun e => match e with
    | Effect.request r => some r
    | _ => none)

/-- The three `console.log` calls of every `catch` block followed by the one
of the `finally` block. -/
def catchLogs : List Effect :=
  [Effect.log "error", Effect.log "error.response?.data", Effect.log "error.message",
    Effect.log "done"]

/-- All fields back to their initial value: `form.resetFields()` with no
`initialValues` on the form. -/
def resetFields : FormFields :=
  { title := none, detail := none, dueDate := none }

/-- The call `form.validateFields()` under the rules of lines 349-380: `title` and
`dueDate` carry `required: true`, `detail` carries no rule.  A required value
is missing when it is `undefined`, the empty string or the empty array.  The
result is the validated values, or `none` when the promise rejects. -/
def validateFields (f : FormFields) : Option FormFields :=
  if f.title = none ∨ f.title = some "" ∨ f.dueDate = none ∨ f.dueDate = some [] then none
  else some f

/-- The function `getTask`, lines 142-154. -/
def getTask (s : AppState) (r : Response (List Task)) : AppState × List Effect :=
  match r with
  | Response.success data =>
    ({ s with tasks := data }, [Effect.request Request.getTasks, Effect.log "done"])
  | Response.failure =>
    (s, Effect.request Request.getTasks :: catchLogs)

/-- The function `createTask`, lines 156-178.  `values?.dueDate[0]` throws when
`values.dueDate` is `undefined`, before the `try`. -/
def createTask (s : AppState) (values : FormFields) (r : Response Task) :
    AppState × List Effect :=
  match values.dueDate with
  | none => (s, [Effect.typeError])
  | some dueDate =>
    let body : TaskPayload :=
      { title := values.title, detail := values.detail,
        startDate := dueDate[0]?, endDate := dueDate[1]? }
    match r with
    | Response.success _ =>
      ({ s with isModalOpen := false, form := resetFields },
        [Effect.log "values", Effect.request (Request.postTask body),
          Effect.notify "Created Tasks Successful", Effect.log "done"])
    | Response.failure =>
      (s, Effect.log "values" :: Effect.request (Request.postTask body) :: catchLogs)

/-- The function `updateTask`, lines 180-204.  Unlike `createTask` it has no
`form.resetFields()` after the notification. -/
def updateTask (s : AppState) (values : FormFields) (r : Response Task) :
    AppState × List Effect :=
  match values.dueDate with
  | none => (s, [Effect.typeError])
  | some dueDate =>
    let body : TaskPayload :=
      { title := values.title, detail := values.detail,
        startDate := dueDate[0]?, endDate := dueDate[1]? }
    let id := s.selectedTasks.map Task.row_id
    match r with
    | Response.success _ =>
      ({ s with isModalOpen := false },
        [Effect.log "values", Effect.request (Request.putDetail id body),
          Effect.notify "Updated Tasks Successful", Effect.log "done"])
    | Response.failure =>
      (s, Effect.log "values" :: Effect.request (Request.putDetail id body) :: catchLogs)

/-- The function `updateTaskStatus`, lines 206-228. -/
def updateTaskStatus (s : AppState) (id : Nat) (status : Nat) (r : Response Task) :
    AppState × List Effect :=
  match r with
  | Response.success _ =>
    ({ s with isModalOpen := false },
      [Effect.request (Request.putStatus id status)]
        ++ (if status = 1 then [Effect.notify "Complete Tasks Successful"] else [])
        ++ (if status = 0 then [Effect.notify "Uncomplete Tasks Successful"] else [])
        ++ [Effect.log "done"])
  | Response.failure =>
    (s, Effect.request (Request.putStatus id status) :: catchLogs)

/-- The function `deleteTask`, lines 248-263.  On success it calls `getTask()`, whose own
backend call has the outcome `rGet`. -/
def deleteTask (s : AppState) (id : Nat) (r : Response Unit) (rGet : Response (List Task)) :
    AppState × List Effect :=
  match r with
  | Response.success _ =>
    let refetched := getTask { s with openConfirmModal := false } rGet
    (refetched.1,
      [Effect.request (Request.deleteTask id), Effect.notify "Deleted Tasks Successful",
        Effect.log "done"] ++ refetched.2)
  | Response.failure =>
    (s, Effect.request (Request.deleteTask id) :: catchLogs)

/-- The conversion `Number(checked)` of a boolean. -/
def Number (checked : Bool) : Nat :=
  if checked then 1 else 0

/-- The switch handler `onChange`, lines 315-317. -/
def onChange (s : AppState) (id : Nat) (checked : Bool) (r : Response Task) :
    AppState × List Effect :=
  updateTaskStatus s id (Number checked) r

/-- The function `handleOk`, lines 121-140.  `form.submit()` has no visible effect here
since the form has no `onFinish` handler.  The two tests on `formState` are
separate `if`s as in the source; `r` is the outcome of the create or update
call.  The re-fetch is scheduled right after the call is issued, whatever its
outcome. -/
def handleOk (s : AppState) (r : Response Task) : AppState × List Effect :=
  match validateFields s.form with
  | some values =>
    let created := if s.formState = "create" then createTask s values r else (s, [])
    let updated :=
      if s.formState = "edit" then updateTask created.1 values r else (created.1, [])
    (updated.1, created.2 ++ updated.2 ++ [Effect.setTimeoutGetTask 500])
  | none => (s, [Effect.log "err: "])

/-! ## Sample data -/

/-- Three sample tasks with ids 1, 2, 3. -/
def taskA : Task := ⟨1, "Alpha", "", 0, 0, 0⟩
/-- Second sample task. -/
def taskB : Task := ⟨2, "Beta", "", 0, 0, 0⟩
/-- Third sample task. -/
def taskC : Task := ⟨3, "Gamma", "", 0, 0, 0⟩
/-- A fourth sample task whose title has no letter `a`. -/
def taskD : Task := ⟨4, "Home", "", 0, 0, 0⟩

/-- An ASCII-only lowering of a string, used as `toLowerCase` when the
theorems are evaluated on sample data (they hold for every `toLowerCase`). -/
def asciiLower (s : String) : String :=
  ⟨s.data.map Char.toLower⟩

/-- A filled form: title, detail and a two-element date range. -/
def sampleForm : FormFields :=
  { title := some "Write report", detail := some "<p>draft</p>", dueDate := some [10, 20] }

/-- A state with the editor open in create mode on the filled form. -/
def sampleCreateState : AppState :=
  { tasks := [taskA, taskB], isModalOpen := true, openConfirmModal := false, loading := false,
    form := sampleForm, selectedTasks := none, formState := "create", searchQuery := "" }

/-- A state with the editor open in edit mode on `taskA`, form filled. -/
def sampleEditState : AppState :=
  { tasks := [taskA, taskB], isModalOpen := true, openConfirmModal := false, loading := false,
    form := sampleForm, selectedTasks := some taskA, formState := "edit", searchQuery := "" }


section Lemmas
variable {α β : Type}

theorem splice_insert (arr : List β) (k : Nat) (hk : k ≤ arr.length) (x : β) :
    (splice arr (k : Int) 0 [x]).2 = arr.take k ++ x :: arr.drop k := by
  unfold splice
  have h1 : (if (k : Int) < 0 then max ((arr.length : Int) + k) 0 else min (k : Int) arr.length).toNat = k := by
    rw [if_neg (by omega)]; omega
  simp only [h1]
  have h2 : (min (max (0 : Int) 0) ((arr.length : Int) - (k : Nat))).toNat = 0 := by omega
  simp only [h2, Nat.add_zero, List.append_assoc, List.singleton_append, List.nil_append]

theorem splice_remove (arr : List β) (k : Nat) (hk : k < arr.length) :
    splice arr (k : Int) 1 [] = ((arr.drop k).take 1, arr.take k ++ arr.drop (k + 1)) := by
  unfold splice
  have h1 : (if (k : Int) < 0 then max ((arr.length : Int) + k) 0 else min (k : Int) arr.length).toNat = k := by
    rw [if_neg (by omega)]; omega
  simp only [h1]
  have h2 : (min (max (1 : Int) 0) ((arr.length : Int) - (k : Nat))).toNat = 1 := by omega
  simp only [h2, Nat.add_zero, List.append_assoc, List.singleton_append, List.nil_append]

theorem getElem_append_cons_length (L R : List α) (a : α)
    (h : L.length < (L ++ a :: R).length) : (L ++ a :: R)[L.length] = a := by
  induction L with
  | nil => rfl
  | cons x L ih => simpa using ih (by simp)

theorem arrayMove_of_lt (xs : List α) (i : Nat) (hi : i < xs.length) (toIdx : Int) (k : Nat)
    (hk : (if toIdx < 0 then (xs.length : Int) + toIdx else toIdx) = (k : Int))
    (hkl : k + 1 ≤ xs.length) :
    arrayMove xs (i : Int) toIdx =
      ((xs.eraseIdx i).take k ++ xs[i] :: (xs.eraseIdx i).drop k).map some := by
  unfold arrayMove
  simp only [List.length_map, hk]
  rw [splice_remove _ _ (by simpa using hi)]
  simp only
  have hlen : k ≤ (List.take i (List.map some xs) ++ List.drop (i + 1) (List.map some xs)).length := by
    simp; omega
  rw [splice_insert _ _ hlen]
  have hitem : (List.take 1 (List.drop i (List.map some xs))).head?.join = some xs[i] := by
    rw [List.drop_eq_getElem_cons (by simpa using hi)]
    simp
  rw [hitem, List.eraseIdx_eq_take_drop_succ]
  simp [List.map_take, List.map_drop]

theorem arrayMove_forward (L M R : List α) (a b : α) :
    arrayMove (L ++ a :: (M ++ b :: R)) (L.length : Int) ((L.length + 1 + M.length : Nat) : Int) =
      (L ++ (M ++ b :: a :: R)).map some := by
  rw [arrayMove_of_lt _ L.length (by simp) _ (L.length + 1 + M.length) (by rw [if_neg (by omega)])
    (by simp; omega)]
  congr 1
  have h1 : (L ++ a :: (M ++ b :: R)).eraseIdx L.length = L ++ (M ++ b :: R) := by
    rw [List.eraseIdx_append_of_length_le (le_refl _)]; simp
  have h2 : L ++ (M ++ b :: R) = (L ++ (M ++ [b])) ++ R := by simp
  rw [h1, h2, List.take_left' (by simp; omega), List.drop_left' (by simp; omega),
    getElem_append_cons_length]
  simp

theorem arrayMove_backward (L M R : List α) (a b : α) :
    arrayMove (L ++ b :: (M ++ a :: R)) ((L.length + 1 + M.length : Nat) : Int) (L.length : Int) =
      (L ++ a :: b :: (M ++ R)).map some := by
  rw [arrayMove_of_lt _ (L.length + 1 + M.length) (by simp; omega) _ L.length
    (by rw [if_neg (by omega)]) (by simp)]
  congr 1
  have h0 : L ++ b :: (M ++ a :: R) = (L ++ b :: M) ++ a :: R := by simp
  have hl : (L ++ b :: M).length = L.length + 1 + M.length := by simp; omega
  have h1 : (L ++ b :: (M ++ a :: R)).eraseIdx (L.length + 1 + M.length) = L ++ (b :: (M ++ R)) := by
    rw [h0, ← hl, List.eraseIdx_append_of_length_le (le_refl _)]; simp
  have h3 : ∀ (h : L.length + 1 + M.length < (L ++ b :: (M ++ a :: R)).length),
      (L ++ b :: (M ++ a :: R))[L.length + 1 + M.length] = a := by
    intro h
    have := getElem_append_cons_length (L ++ b :: M) R a (by simp)
    simpa [hl] using this
  rw [h1, h3, List.take_left' rfl, List.drop_left' rfl]

theorem arrayMove_to_end (L R : List α) (a : α) :
    arrayMove (L ++ a :: R) (L.length : Int) (-1) = (L ++ (R ++ [a])).map some := by
  rw [arrayMove_of_lt _ L.length (by simp) _ (L.length + R.length)
    (by rw [if_pos (by omega)]; simp; omega) (by simp; omega)]
  congr 1
  have h1 : (L ++ a :: R).eraseIdx L.length = L ++ R := by
    rw [List.eraseIdx_append_of_length_le (le_refl _)]; simp
  rw [h1, List.take_of_length_le (by simp), List.drop_of_length_le (by simp),
    getElem_append_cons_length]
  simp

theorem findIndex_of_all_false (p : α → Bool) (xs : List α) (h : ∀ x ∈ xs, p x = false) :
    findIndex p xs = -1 := by
  unfold findIndex
  rw [List.findIdx_eq_length_of_false h, if_neg (lt_irrefl _)]

theorem findIdx_append_cons (p : α → Bool) (L R : List α) (a : α)
    (hL : ∀ x ∈ L, p x = false) (ha : p a = true) :
    (L ++ a :: R).findIdx p = L.length := by
  induction L with
  | nil => simp [List.findIdx_cons, ha]
  | cons x L ih =>
    have hx : p x = false := hL x (by simp)
    have := ih (fun y hy => hL y (by simp [hy]))
    simp [List.findIdx_cons, hx, this]

theorem findIndex_append_cons (p : α → Bool) (L R : List α) (a : α)
    (hL : ∀ x ∈ L, p x = false) (ha : p a = true) :
    findIndex p (L ++ a :: R) = (L.length : Int) := by
  unfold findIndex
  rw [findIdx_append_cons p L R a hL ha, if_pos (by simp)]

theorem exists_first_split (p : α → Bool) (xs : List α) (h : ∃ x ∈ xs, p x = true) :
    ∃ L a R, xs = L ++ a :: R ∧ p a = true ∧ ∀ x ∈ L, p x = false := by
  induction xs with
  | nil => simp at h
  | cons x xs ih =>
    by_cases hx : p x = true
    · exact ⟨[], x, xs, rfl, hx, by simp⟩
    · have hx' : p x = false := by simpa using hx
      obtain ⟨y, hy, hpy⟩ := h
      have hy' : y ∈ xs := by
        rcases List.mem_cons.mp hy with rfl | hy'
        · exact absurd hpy hx
        · exact hy'
      obtain ⟨L, a, R, rfl, ha, hL⟩ := ih ⟨y, hy', hpy⟩
      refine ⟨x :: L, a, R, rfl, ha, ?_⟩
      intro z hz
      rcases List.mem_cons.mp hz with rfl | hz'
      · exact hx'
      · exact hL z hz'

theorem onDragEnd_forward (L M R : List Task) (a b : Task)
    (ha : ∀ x ∈ L, x.row_id ≠ a.row_id)
    (hb : ∀ x ∈ L ++ a :: M, x.row_id ≠ b.row_id) :
    onDragEnd (L ++ a :: (M ++ b :: R)) a.row_id (some b.row_id) =
      (L ++ (M ++ b :: a :: R)).map some := by
  have hab : a.row_id ≠ b.row_id := hb a (by simp)
  unfold onDragEnd
  rw [if_pos (by simpa using hab)]
  have h1 : findIndex (fun record : Task => decide (some record.row_id = some a.row_id))
      (L ++ a :: (M ++ b :: R)) = (L.length : Int) :=
    findIndex_append_cons _ _ _ _ (fun x hx => by simpa using ha x hx) (by simp)
  have h2 : findIndex (fun record : Task => decide (some record.row_id = some b.row_id))
      (L ++ a :: (M ++ b :: R)) = ((L.length + 1 + M.length : Nat) : Int) := by
    have e : L ++ a :: (M ++ b :: R) = (L ++ a :: M) ++ b :: R := by simp
    rw [e, findIndex_append_cons _ _ _ _ (fun x hx => by simpa using hb x hx) (by simp)]
    simp; omega
  simp only [h1, h2]
  exact arrayMove_forward L M R a b

theorem onDragEnd_backward (L M R : List Task) (a b : Task)
    (hb : ∀ x ∈ L, x.row_id ≠ b.row_id)
    (ha : ∀ x ∈ L ++ b :: M, x.row_id ≠ a.row_id) :
    onDragEnd (L ++ b :: (M ++ a :: R)) a.row_id (some b.row_id) =
      (L ++ a :: b :: (M ++ R)).map some := by
  have hab : a.row_id ≠ b.row_id := fun h => ha b (by simp) h.symm
  unfold onDragEnd
  rw [if_pos (by simpa using hab)]
  have h1 : findIndex (fun record : Task => decide (some record.row_id = some b.row_id))
      (L ++ b :: (M ++ a :: R)) = (L.length : Int) :=
    findIndex_append_cons _ _ _ _ (fun x hx => by simpa using hb x hx) (by simp)
  have h2 : findIndex (fun record : Task => decide (some record.row_id = some a.row_id))
      (L ++ b :: (M ++ a :: R)) = ((L.length + 1 + M.length : Nat) : Int) := by
    have e : L ++ b :: (M ++ a :: R) = (L ++ b :: M) ++ a :: R := by simp
    rw [e, findIndex_append_cons _ _ _ _ (fun x hx => by simpa using ha x hx) (by simp)]
    simp; omega
  simp only [h1, h2]
  exact arrayMove_backward L M R a b

theorem onDragEnd_to_end (L R : List Task) (a : Task) (over : Option Nat)
    (ha : ∀ x ∈ L, x.row_id ≠ a.row_id)
    (hover : ∀ x ∈ L ++ a :: R, some x.row_id ≠ over) :
    onDragEnd (L ++ a :: R) a.row_id over = (L ++ (R ++ [a])).map some := by
  have hao : some a.row_id ≠ over := hover a (by simp)
  unfold onDragEnd
  rw [if_pos hao]
  have h1 : findIndex (fun record : Task => decide (some record.row_id = some a.row_id))
      (L ++ a :: R) = (L.length : Int) :=
    findIndex_append_cons _ _ _ _ (fun x hx => by simpa using ha x hx) (by simp)
  have h2 : findIndex (fun record : Task => decide (some record.row_id = over))
      (L ++ a :: R) = -1 :=
    findIndex_of_all_false _ _ (fun x hx => by simpa using hover x hx)
  simp only [h1, h2]
  exact arrayMove_to_end L R a

/-- Dropping a task onto itself: the guard fails and the list stays as it is. -/
theorem onDragEnd_onto_itself (tasks : List Task) (active : Nat) :
    onDragEnd tasks active (some active) = tasks.map some := by
  simp [onDragEnd]

/-- A drag that ends with no target moves the dragged task to the end. -/
theorem onDragEnd_no_target (L R : List Task) (a : Task)
    (ha : ∀ x ∈ L, x.row_id ≠ a.row_id) :
    onDragEnd (L ++ a :: R) a.row_id none = (L ++ (R ++ [a])).map some :=
  onDragEnd_to_end L R a none ha (fun _ _ h => by simp at h)

theorem ne_of_nodup_map_append_cons {γ : Type} (f : α → γ) (X Y : List α) (y : α)
    (h : ((X ++ y :: Y).map f).Nodup) : ∀ x ∈ X, f x ≠ f y := by
  rw [List.map_append, List.map_cons, List.nodup_append] at h
  intro x hx heq
  exact h.2.2 (List.mem_map_of_mem f hx) (heq ▸ List.mem_cons_self _ _)

theorem two_mem_split (xs : List α) (a b : α) (ha : a ∈ xs) (hb : b ∈ xs) (hab : a ≠ b) :
    (∃ L M R, xs = L ++ a :: (M ++ b :: R)) ∨ (∃ L M R, xs = L ++ b :: (M ++ a :: R)) := by
  obtain ⟨L, R, rfl⟩ := List.append_of_mem ha
  rcases List.mem_append.mp hb with hbL | hbR
  · obtain ⟨L1, M, rfl⟩ := List.append_of_mem hbL
    exact Or.inr ⟨L1, M, R, by simp⟩
  · rcases List.mem_cons.mp hbR with h | hbR
    · exact absurd h.symm hab
    · obtain ⟨M, R1, rfl⟩ := List.append_of_mem hbR
      exact Or.inl ⟨L, M, R1, rfl⟩

theorem onDragEnd_split (tasks : List Task) (hnd : (tasks.map Task.row_id).Nodup)
    (a b : Task) (ha : a ∈ tasks) (hb : b ∈ tasks) (hab : a.row_id ≠ b.row_id) :
    (∃ L M R, tasks = L ++ a :: (M ++ b :: R) ∧
        onDragEnd tasks a.row_id (some b.row_id) = (L ++ (M ++ b :: a :: R)).map some) ∨
    (∃ L M R, tasks = L ++ b :: (M ++ a :: R) ∧
        onDragEnd tasks a.row_id (some b.row_id) = (L ++ a :: b :: (M ++ R)).map some) := by
  have hne : a ≠ b := fun h => hab (by rw [h])
  rcases two_mem_split tasks a b ha hb hne with ⟨L, M, R, rfl⟩ | ⟨L, M, R, rfl⟩
  · refine Or.inl ⟨L, M, R, rfl, onDragEnd_forward L M R a b ?_ ?_⟩
    · exact ne_of_nodup_map_append_cons Task.row_id L _ a hnd
    · have e : L ++ a :: (M ++ b :: R) = (L ++ a :: M) ++ b :: R := by simp
      rw [e] at hnd
      exact ne_of_nodup_map_append_cons Task.row_id _ _ b hnd
  · refine Or.inr ⟨L, M, R, rfl, onDragEnd_backward L M R a b ?_ ?_⟩
    · exact ne_of_nodup_map_append_cons Task.row_id L _ b hnd
    · have e : L ++ b :: (M ++ a :: R) = (L ++ b :: M) ++ a :: R := by simp
      rw [e] at hnd
      exact ne_of_nodup_map_append_cons Task.row_id _ _ a hnd

theorem getElem?_append_cons_length (L R : List α) (a : α) :
    (L ++ a :: R)[L.length]? = some a := by
  rw [List.getElem?_append_right (le_refl _)]
  simp

theorem index_unique_of_nodup (L R : List α) (a : α) (hnd : (L ++ a :: R).Nodup) (j : Nat)
    (h : (L ++ a :: R)[j]? = some a) : j = L.length := by
  have hl : L.length < (L ++ a :: R).length := by simp
  exact (List.getElem?_inj hl hnd ((getElem?_append_cons_length L R a).trans h.symm)).symm

theorem erase_append_cons [DecidableEq α] (L R : List α) (a : α) (h : a ∉ L) :
    (L ++ a :: R).erase a = L ++ R := by
  rw [List.erase_append_right _ h]
  simp

theorem forward_props [DecidableEq α] (L M R : List α) (a b : α)
    (hnd : (L ++ a :: (M ++ b :: R)).Nodup) :
    (∀ j : Nat, (L ++ a :: (M ++ b :: R))[j]? = some b → (L ++ (M ++ b :: a :: R))[j]? = some a) ∧
    (L ++ (M ++ b :: a :: R)).erase a = (L ++ a :: (M ++ b :: R)).erase a := by
  have e1 : L ++ a :: (M ++ b :: R) = (L ++ a :: M) ++ b :: R := by simp
  have e2 : L ++ (M ++ b :: a :: R) = (L ++ (M ++ [b])) ++ a :: R := by simp
  have haL : a ∉ L := fun h => by
    have := List.nodup_append.mp hnd
    exact this.2.2 h (List.mem_cons_self _ _)
  have haLMb : a ∉ L ++ (M ++ [b]) := by
    intro h
    have hn := (List.nodup_append.mp hnd).2.1
    rw [List.nodup_cons] at hn
    rcases List.mem_append.mp h with h | h
    · exact haL h
    · exact hn.1 (by
        rcases List.mem_append.mp h with h | h
        · exact List.mem_append_left _ h
        · exact List.mem_append_right _ (by simpa using Or.inl (List.mem_singleton.mp h)))
  constructor
  · intro j hj
    rw [e1] at hj hnd
    have := index_unique_of_nodup _ _ b hnd j hj
    subst this
    rw [e2]
    have hl : (L ++ a :: M).length = (L ++ (M ++ [b])).length := by simp
    rw [hl]
    exact getElem?_append_cons_length _ _ _
  · rw [e2, erase_append_cons _ _ _ haLMb, erase_append_cons _ _ _ haL]
    simp

theorem backward_props [DecidableEq α] (L M R : List α) (a b : α)
    (hnd : (L ++ b :: (M ++ a :: R)).Nodup) :
    (∀ j : Nat, (L ++ b :: (M ++ a :: R))[j]? = some b → (L ++ a :: b :: (M ++ R))[j]? = some a) ∧
    (L ++ a :: b :: (M ++ R)).erase a = (L ++ b :: (M ++ a :: R)).erase a := by
  have e1 : L ++ b :: (M ++ a :: R) = (L ++ b :: M) ++ a :: R := by simp
  have haLbM : a ∉ L ++ b :: M := fun h => by
    rw [e1] at hnd
    exact (List.nodup_append.mp hnd).2.2 h (List.mem_cons_self _ _)
  have haL : a ∉ L := fun h => haLbM (List.mem_append_left _ h)
  constructor
  · intro j hj
    have := index_unique_of_nodup _ _ b hnd j hj
    subst this
    exact getElem?_append_cons_length _ _ _
  · rw [erase_append_cons _ _ _ haL, e1, erase_append_cons _ _ _ haLbM]
    simp

theorem forward_perm (L M R : List α) (a b : α) :
    (L ++ (M ++ b :: a :: R)).Perm (L ++ a :: (M ++ b :: R)) := by
  apply List.Perm.append_left
  have e : M ++ b :: a :: R = (M ++ [b]) ++ a :: R := by simp
  rw [e]
  exact List.perm_middle.trans (by simp)

theorem backward_perm (L M R : List α) (a b : α) :
    (L ++ a :: b :: (M ++ R)).Perm (L ++ b :: (M ++ a :: R)) := by
  apply List.Perm.append_left
  have e : b :: (M ++ a :: R) = (b :: M) ++ a :: R := by simp
  rw [e]
  exact (List.perm_middle.trans (by simp)).symm

theorem to_end_perm (L R : List α) (a : α) :
    (L ++ (R ++ [a])).Perm (L ++ a :: R) := by
  apply List.Perm.append_left
  exact List.perm_append_singleton a R

theorem filteredTasks_append (toLowerCase : String → String) (q : String) (xs ys : List Task) :
    filteredTasks toLowerCase q (xs ++ ys) =
      filteredTasks toLowerCase q xs ++ filteredTasks toLowerCase q ys := by
  simp [filteredTasks]

theorem filteredTasks_cons_of_mem (toLowerCase : String → String) (q : String)
    (tasks : List Task) (a : Task) (ha : a ∈ filteredTasks toLowerCase q tasks) (xs : List Task) :
    filteredTasks toLowerCase q (a :: xs) = a :: filteredTasks toLowerCase q xs := by
  have hp := (List.mem_filter.mp ha).2
  simp only [filteredTasks, List.filter_cons, hp, if_true]

end Lemmas

/-! ## Theorems -/

/-- C1: the filtered view is the order-preserving sublist of `tasks` selected by
"the lower-cased title contains the lower-cased query": it is a sublist of
`tasks`, a task is in it exactly when it is in `tasks` and matches, every
matching task occurs as often as in `tasks`, and every sublist of `tasks`
made of matching tasks is a sublist of the view. -/
theorem filteredTasks_exact (toLowerCase : String → String) (searchQuery : String)
    (tasks : List Task) :
    (filteredTasks toLowerCase searchQuery tasks).Sublist tasks ∧
    (∀ t, t ∈ filteredTasks toLowerCase searchQuery tasks ↔
        t ∈ tasks ∧ (toLowerCase searchQuery).data <:+: (toLowerCase t.title).data) ∧
    (∀ t, (toLowerCase searchQuery).data <:+: (toLowerCase t.title).data →
        (filteredTasks toLowerCase searchQuery tasks).count t = tasks.count t) ∧
    (∀ l : List Task, l.Sublist tasks →
        (∀ t ∈ l, (toLowerCase searchQuery).data <:+: (toLowerCase t.title).data) →
        l.Sublist (filteredTasks toLowerCase searchQuery tasks)) := by
  refine ⟨List.filter_sublist _, ?_, ?_, ?_⟩
  · intro t
    simp [filteredTasks, includes]
  · intro t ht
    unfold filteredTasks
    exact List.count_filter (by simpa [includes] using ht)
  · intro l hl hall
    have hself : l.filter (fun task =>
        includes (toLowerCase task.title) (toLowerCase searchQuery)) = l :=
      List.filter_eq_self.mpr (fun t ht => by simpa [includes] using hall t ht)
    rw [← hself]
    exact hl.filter _

/-- C10: when the active id is the `row_id` of a task of the list, whatever the
drop target is (another id, the same id, an unknown id, or none), the list
after `onDragEnd` holds only tasks (no `undefined`), is a permutation of the
list before it, has the same length, and keeps distinct `row_id`s distinct. -/
theorem onDragEnd_perm (tasks : List Task) (active : Nat) (over : Option Nat)
    (h : ∃ t ∈ tasks, t.row_id = active) :
    ∃ next : List Task, onDragEnd tasks active over = next.map some ∧ next.Perm tasks ∧
      next.length = tasks.length ∧
      ((tasks.map Task.row_id).Nodup → (next.map Task.row_id).Nodup) := by
  suffices hs : ∃ next : List Task, onDragEnd tasks active over = next.map some ∧ next.Perm tasks by
    obtain ⟨next, h1, h2⟩ := hs
    exact ⟨next, h1, h2, h2.length_eq, fun hn => ((h2.map Task.row_id).nodup_iff).mpr hn⟩
  by_cases hg : some active = over
  · exact ⟨tasks, by simp [onDragEnd, hg], List.Perm.refl _⟩
  obtain ⟨L, a, R, rfl, hpa, hL⟩ :=
    exists_first_split (fun t : Task => decide (t.row_id = active)) tasks
      (by obtain ⟨t, ht, hta⟩ := h; exact ⟨t, ht, by simpa using hta⟩)
  have haid : a.row_id = active := by simpa using hpa
  subst haid
  have hL1 : ∀ x ∈ L, x.row_id ≠ a.row_id := fun x hx => by simpa using hL x hx
  by_cases ho : ∃ x ∈ L ++ a :: R, some x.row_id = over
  · obtain ⟨x, hx, hxo⟩ := ho
    subst hxo
    have hxa : x.row_id ≠ a.row_id := fun e => hg (by rw [e])
    by_cases hinL : ∃ y ∈ L, y.row_id = x.row_id
    · obtain ⟨L1, b, M, rfl, hpb, hL1b⟩ :=
        exists_first_split (fun t : Task => decide (t.row_id = x.row_id)) L
          (by obtain ⟨y, hy, hyx⟩ := hinL; exact ⟨y, hy, by simpa using hyx⟩)
      have hbid : b.row_id = x.row_id := by simpa using hpb
      rw [← hbid]
      refine ⟨L1 ++ a :: b :: (M ++ R), ?_, ?_⟩
      · have e : (L1 ++ b :: M) ++ a :: R = L1 ++ b :: (M ++ a :: R) := by simp
        rw [e]
        exact onDragEnd_backward L1 M R a b
          (fun y hy => by rw [hbid]; simpa using hL1b y hy) hL1
      · have e : (L1 ++ b :: M) ++ a :: R = L1 ++ b :: (M ++ a :: R) := by simp
        rw [e]
        exact backward_perm L1 M R a b
    · have hxR : x ∈ R := by
        rcases List.mem_append.mp hx with hxL | hxR
        · exact absurd ⟨x, hxL, rfl⟩ hinL
        · rcases List.mem_cons.mp hxR with rfl | hxR
          · exact absurd rfl hxa
          · exact hxR
      obtain ⟨M, b, R1, rfl, hpb, hMb⟩ :=
        exists_first_split (fun t : Task => decide (t.row_id = x.row_id)) R
          ⟨x, hxR, by simp⟩
      have hbid : b.row_id = x.row_id := by simpa using hpb
      rw [← hbid]
      refine ⟨L ++ (M ++ b :: a :: R1), ?_, forward_perm L M R1 a b⟩
      refine onDragEnd_forward L M R1 a b hL1 ?_
      intro y hy
      rw [hbid]
      rcases List.mem_append.mp hy with hyL | hyM
      · exact fun e => hinL ⟨y, hyL, e⟩
      · rcases List.mem_cons.mp hyM with rfl | hyM
        · exact fun e => hxa e.symm
        · simpa using hMb y hyM
  · refine ⟨L ++ (R ++ [a]), ?_, to_end_perm L R a⟩
    exact onDragEnd_to_end L R a over hL1 (fun x hx e => ho ⟨x, hx, e⟩)

/-- C2: in a list with pairwise distinct `row_id`s, dragging task `a` onto a
different task `b` of the list yields a list of tasks `next` in which `a` sits
at every index where `b` sat before, which equals the old list once `a` is
erased from both (all other tasks keep their order), and in which `a` is
immediately after `b` when it started before `b`, and immediately before `b`
when it started after `b`. -/
theorem onDragEnd_moves_to_target (tasks : List Task)
    (hnd : (tasks.map Task.row_id).Nodup) (a b : Task)
    (ha : a ∈ tasks) (hb : b ∈ tasks) (hab : a.row_id ≠ b.row_id) :
    ∃ next : List Task, onDragEnd tasks a.row_id (some b.row_id) = next.map some ∧
      (∀ j : Nat, tasks[j]? = some b → next[j]? = some a) ∧
      next.erase a = tasks.erase a ∧
      ((∃ L M R, tasks = L ++ a :: (M ++ b :: R) ∧ next = L ++ (M ++ b :: a :: R)) ∨
       (∃ L M R, tasks = L ++ b :: (M ++ a :: R) ∧ next = L ++ a :: b :: (M ++ R))) := by
  have hnd1 : tasks.Nodup := List.Nodup.of_map _ hnd
  rcases onDragEnd_split tasks hnd a b ha hb hab with ⟨L, M, R, rfl, h⟩ | ⟨L, M, R, rfl, h⟩
  · exact ⟨_, h, (forward_props L M R a b hnd1).1, (forward_props L M R a b hnd1).2,
      Or.inl ⟨L, M, R, rfl, rfl⟩⟩
  · exact ⟨_, h, (backward_props L M R a b hnd1).1, (backward_props L M R a b hnd1).2,
      Or.inr ⟨L, M, R, rfl, rfl⟩⟩

/-- C2 at `[A, B, C]`: dragging `C` onto `A` yields `[C, A, B]`. -/
theorem onDragEnd_moves_to_target_witness :
    ([taskA, taskB, taskC].map Task.row_id).Nodup ∧ taskC ∈ [taskA, taskB, taskC] ∧
    taskA ∈ [taskA, taskB, taskC] ∧ taskC.row_id ≠ taskA.row_id ∧
    (∃ next : List Task,
      onDragEnd [taskA, taskB, taskC] taskC.row_id (some taskA.row_id) = next.map some ∧
      (∀ j : Nat, [taskA, taskB, taskC][j]? = some taskA → next[j]? = some taskC) ∧
      next.erase taskC = [taskA, taskB, taskC].erase taskC ∧
      ((∃ L M R, [taskA, taskB, taskC] = L ++ taskC :: (M ++ taskA :: R) ∧
          next = L ++ (M ++ taskA :: taskC :: R)) ∨
       (∃ L M R, [taskA, taskB, taskC] = L ++ taskA :: (M ++ taskC :: R) ∧
          next = L ++ taskC :: taskA :: (M ++ R)))) ∧
    onDragEnd [taskA, taskB, taskC] taskC.row_id (some taskA.row_id) =
      [some taskC, some taskA, some taskB] :=
  ⟨by decide, by decide, by decide, by decide,
    onDragEnd_moves_to_target [taskA, taskB, taskC] (by decide) taskC taskA
      (by decide) (by decide) (by decide),
    by decide⟩

/-- C3, the case of no target: when the drag of the first of three tasks ends
with `over` equal to `null`, the guard `active.id !== over?.id` passes,
`findIndex` returns `-1` for the target, and `arrayMove` moves the dragged task
to the end of the list; the list is not left as it was. -/
theorem onDragEnd_no_target_moves_to_end :
    onDragEnd [taskA, taskB, taskC] taskA.row_id none =
      [some taskB, some taskC, some taskA] ∧
    onDragEnd [taskA, taskB, taskC] taskA.row_id none ≠
      [taskA, taskB, taskC].map some := by
  decide

/-- C4: in a list with pairwise distinct `row_id`s, when `a` and `b` are two
different tasks at indices `i` and `j` of the filtered view, the filtered view
of the list after `onDragEnd` is `arrayMove` of the previous filtered view
from `i` to `j`. -/
theorem filteredTasks_onDragEnd_commute (toLowerCase : String → String) (q : String)
    (tasks : List Task) (hnd : (tasks.map Task.row_id).Nodup) (a b : Task) (i j : Nat)
    (hi : (filteredTasks toLowerCase q tasks)[i]? = some a)
    (hj : (filteredTasks toLowerCase q tasks)[j]? = some b) (hab : a ≠ b) :
    ∃ next : List Task, onDragEnd tasks a.row_id (some b.row_id) = next.map some ∧
      (filteredTasks toLowerCase q next).map some =
        arrayMove (filteredTasks toLowerCase q tasks) (i : Int) (j : Int) := by
  have haf := List.getElem?_mem hi
  have hbf := List.getElem?_mem hj
  have ha : a ∈ tasks := (List.mem_filter.mp haf).1
  have hb : b ∈ tasks := (List.mem_filter.mp hbf).1
  have hids : a.row_id ≠ b.row_id := fun e => hab (List.inj_on_of_nodup_map hnd ha hb e)
  have hndf : (filteredTasks toLowerCase q tasks).Nodup :=
    (List.Nodup.of_map _ hnd).filter _
  have ca := filteredTasks_cons_of_mem toLowerCase q tasks a haf
  have cb := filteredTasks_cons_of_mem toLowerCase q tasks b hbf
  rcases onDragEnd_split tasks hnd a b ha hb hids with ⟨L, M, R, hdec, h⟩ | ⟨L, M, R, hdec, h⟩
  · refine ⟨_, h, ?_⟩
    have ef : filteredTasks toLowerCase q tasks =
        filteredTasks toLowerCase q L ++ a ::
          (filteredTasks toLowerCase q M ++ b :: filteredTasks toLowerCase q R) := by
      rw [hdec, filteredTasks_append, ca, filteredTasks_append, cb]
    rw [ef] at hi hj hndf
    have hi1 := index_unique_of_nodup _ _ a hndf i hi
    have e2 : filteredTasks toLowerCase q L ++ a ::
          (filteredTasks toLowerCase q M ++ b :: filteredTasks toLowerCase q R) =
        (filteredTasks toLowerCase q L ++ a :: filteredTasks toLowerCase q M) ++
          b :: filteredTasks toLowerCase q R := by simp
    rw [e2] at hj hndf
    have hj1 := index_unique_of_nodup _ _ b hndf j hj
    have hj2 : j = (filteredTasks toLowerCase q L).length + 1 +
        (filteredTasks toLowerCase q M).length := by
      rw [hj1]; simp; omega
    rw [ef, hi1, hj2, arrayMove_forward, filteredTasks_append, filteredTasks_append, cb, ca]
  · refine ⟨_, h, ?_⟩
    have ef : filteredTasks toLowerCase q tasks =
        filteredTasks toLowerCase q L ++ b ::
          (filteredTasks toLowerCase q M ++ a :: filteredTasks toLowerCase q R) := by
      rw [hdec, filteredTasks_append, cb, filteredTasks_append, ca]
    rw [ef] at hi hj hndf
    have hj1 := index_unique_of_nodup _ _ b hndf j hj
    have e2 : filteredTasks toLowerCase q L ++ b ::
          (filteredTasks toLowerCase q M ++ a :: filteredTasks toLowerCase q R) =
        (filteredTasks toLowerCase q L ++ b :: filteredTasks toLowerCase q M) ++
          a :: filteredTasks toLowerCase q R := by simp
    rw [e2] at hi hndf
    have hi1 := index_unique_of_nodup _ _ a hndf i hi
    have hi2 : i = (filteredTasks toLowerCase q L).length + 1 +
        (filteredTasks toLowerCase q M).length := by
      rw [hi1]; simp; omega
    rw [ef, hi2, hj1, arrayMove_backward, filteredTasks_append, ca, cb, filteredTasks_append]

/-- C4 at `[A, D, B, C]` filtered by `"A"` (which hides `D`, whose title is
`Home`): dragging `C` (filtered index 2) onto `A` (filtered index 0). -/
theorem filteredTasks_onDragEnd_commute_witness :
    ([taskA, taskD, taskB, taskC].map Task.row_id).Nodup ∧
    (filteredTasks asciiLower "A" [taskA, taskD, taskB, taskC])[2]? = some taskC ∧
    (filteredTasks asciiLower "A" [taskA, taskD, taskB, taskC])[0]? = some taskA ∧
    taskC ≠ taskA ∧
    (∃ next : List Task,
      onDragEnd [taskA, taskD, taskB, taskC] taskC.row_id (some taskA.row_id) = next.map some ∧
      (filteredTasks asciiLower "A" next).map some =
        arrayMove (filteredTasks asciiLower "A" [taskA, taskD, taskB, taskC]) ((2 : Nat) : Int)
          ((0 : Nat) : Int)) ∧
    onDragEnd [taskA, taskD, taskB, taskC] taskC.row_id (some taskA.row_id) =
      [some taskC, some taskA, some taskD, some taskB] ∧
    arrayMove (filteredTasks asciiLower "A" [taskA, taskD, taskB, taskC]) 2 0 =
      [some taskC, some taskA, some taskB] :=
  ⟨by decide, by decide, by decide, by decide,
    filteredTasks_onDragEnd_commute asciiLower "A" [taskA, taskD, taskB, taskC] (by decide)
      taskC taskA 2 0 (by decide) (by decide) (by decide),
    by decide, by decide⟩

/-- C10 at `[A, B, C]` with the drag of `A` ending on no target. -/
theorem onDragEnd_perm_witness :
    (∃ t ∈ [taskA, taskB, taskC], t.row_id = 1) ∧
    ∃ next : List Task, onDragEnd [taskA, taskB, taskC] 1 none = next.map some ∧
      next.Perm [taskA, taskB, taskC] ∧ next.length = [taskA, taskB, taskC].length ∧
      (([taskA, taskB, taskC].map Task.row_id).Nodup → (next.map Task.row_id).Nodup) :=
  ⟨⟨taskA, by decide, rfl⟩,
    onDragEnd_perm [taskA, taskB, taskC] 1 none ⟨taskA, by decide, rfl⟩⟩

/-- C5: when the form fails validation, `handleOk` leaves the whole state as it
was and produces no backend call, no notification and no scheduled re-fetch;
a form whose title or date range is missing or empty fails validation. -/
theorem handleOk_invalid_no_call (s : AppState) (r : Response Task)
    (h : validateFields s.form = none) :
    (handleOk s r).1 = s ∧ requests (handleOk s r).2 = [] ∧
      notifications (handleOk s r).2 = [] ∧
      (∀ ms, Effect.setTimeoutGetTask ms ∉ (handleOk s r).2) ∧
      (∀ f : FormFields, (f.title = none ∨ f.title = some "" ∨ f.dueDate = none ∨
          f.dueDate = some []) → validateFields f = none) := by
  refine ⟨?_, ?_, ?_, ?_, ?_⟩
  · simp [handleOk, h]
  · simp [handleOk, h, requests]
  · simp [handleOk, h, notifications]
  · simp [handleOk, h]
  · intro f hf
    simp [validateFields, hf]

/-- C5 at the create state with the title removed from the form. -/
theorem handleOk_invalid_no_call_witness :
    validateFields { sampleCreateState with form := { sampleForm with title := none } }.form = none ∧
    (handleOk { sampleCreateState with form := { sampleForm with title := none } }
        (Response.success taskC)).1 =
      { sampleCreateState with form := { sampleForm with title := none } } :=
  ⟨by decide,
    (handleOk_invalid_no_call { sampleCreateState with form := { sampleForm with title := none } }
      (Response.success taskC) (by decide)).1⟩

/-- C6: each of the five repository operations, when its backend call fails,
leaves the state exactly as it was, shows no notification, issues only its
own request, and reaches its `catch` block (the error is logged, nothing is
thrown). -/
theorem failure_leaves_state (s : AppState) :
    ((getTask s Response.failure).1 = s ∧ notifications (getTask s Response.failure).2 = [] ∧
      requests (getTask s Response.failure).2 = [Request.getTasks] ∧
      Effect.log "error" ∈ (getTask s Response.failure).2 ∧
      Effect.typeError ∉ (getTask s Response.failure).2) ∧
    (∀ title detail dueDate,
      (createTask s ⟨title, detail, some dueDate⟩ Response.failure).1 = s ∧
      notifications (createTask s ⟨title, detail, some dueDate⟩ Response.failure).2 = [] ∧
      requests (createTask s ⟨title, detail, some dueDate⟩ Response.failure).2 =
        [Request.postTask ⟨title, detail, dueDate[0]?, dueDate[1]?⟩] ∧
      Effect.log "error" ∈ (createTask s ⟨title, detail, some dueDate⟩ Response.failure).2 ∧
      Effect.typeError ∉ (createTask s ⟨title, detail, some dueDate⟩ Response.failure).2) ∧
    (∀ title detail dueDate,
      (updateTask s ⟨title, detail, some dueDate⟩ Response.failure).1 = s ∧
      notifications (updateTask s ⟨title, detail, some dueDate⟩ Response.failure).2 = [] ∧
      requests (updateTask s ⟨title, detail, some dueDate⟩ Response.failure).2 =
        [Request.putDetail (s.selectedTasks.map Task.row_id)
          ⟨title, detail, dueDate[0]?, dueDate[1]?⟩] ∧
      Effect.log "error" ∈ (updateTask s ⟨title, detail, some dueDate⟩ Response.failure).2 ∧
      Effect.typeError ∉ (updateTask s ⟨title, detail, some dueDate⟩ Response.failure).2) ∧
    (∀ id status, (updateTaskStatus s id status Response.failure).1 = s ∧
      notifications (updateTaskStatus s id status Response.failure).2 = [] ∧
      requests (updateTaskStatus s id status Response.failure).2 =
        [Request.putStatus id status] ∧
      Effect.log "error" ∈ (updateTaskStatus s id status Response.failure).2 ∧
      Effect.typeError ∉ (updateTaskStatus s id status Response.failure).2) ∧
    (∀ id rGet, (deleteTask s id Response.failure rGet).1 = s ∧
      notifications (deleteTask s id Response.failure rGet).2 = [] ∧
      requests (deleteTask s id Response.failure rGet).2 = [Request.deleteTask id] ∧
      Effect.log "error" ∈ (deleteTask s id Response.failure rGet).2 ∧
      Effect.typeError ∉ (deleteTask s id Response.failure rGet).2) := by
  refine ⟨?_, ?_, ?_, ?_, ?_⟩
  · simp [getTask, notifications, requests, catchLogs]
  · intro title detail dueDate
    simp [createTask, notifications, requests, catchLogs]
  · intro title detail dueDate
    simp [updateTask, notifications, requests, catchLogs]
  · intro id status
    simp [updateTaskStatus, notifications, requests, catchLogs]
  · intro id rGet
    simp [deleteTask, notifications, requests, catchLogs]

/-- C7: in create mode with a form that passes validation, when the create
request succeeds the state after `handleOk` is the previous state with the
editor modal closed and the form fields reset; exactly one notification,
"Created Tasks Successful", is shown; the only request is the POST of the
payload; a `getTask` is scheduled after 500 ms; and when that `getTask`
succeeds the task list is the server's list (so it holds the new task when the
server's list does). -/
theorem handleOk_create_success (s : AppState) (values : FormFields) (created : Task)
    (hmode : s.formState = "create") (hvalid : validateFields s.form = some values) :
    (handleOk s (Response.success created)).1 =
        { s with isModalOpen := false, form := resetFields } ∧
      (handleOk s (Response.success created)).1.isModalOpen = false ∧
      notifications (handleOk s (Response.success created)).2 = ["Created Tasks Successful"] ∧
      (∃ dueDate, values.dueDate = some dueDate ∧
        requests (handleOk s (Response.success created)).2 =
          [Request.postTask ⟨values.title, values.detail, dueDate[0]?, dueDate[1]?⟩]) ∧
      Effect.setTimeoutGetTask 500 ∈ (handleOk s (Response.success created)).2 ∧
      (∀ serverList : List Task,
        (getTask (handleOk s (Response.success created)).1 (Response.success serverList)).1 =
            { s with isModalOpen := false, form := resetFields, tasks := serverList } ∧
        (created ∈ serverList →
          created ∈ (getTask (handleOk s (Response.success created)).1
            (Response.success serverList)).1.tasks)) := by
  have hne : s.formState ≠ "edit" := by rw [hmode]; decide
  have hv : values = s.form ∧ ∃ dueDate, s.form.dueDate = some dueDate := by
    unfold validateFields at hvalid
    split at hvalid
    · exact absurd hvalid (by simp)
    · rename_i hcond
      refine ⟨(Option.some.inj hvalid).symm, ?_⟩
      cases hd : s.form.dueDate with
      | none => exact absurd (Or.inr (Or.inr (Or.inl hd))) hcond
      | some dd => exact ⟨dd, rfl⟩
  obtain ⟨rfl, dd, hdd⟩ := hv
  have hstate : (handleOk s (Response.success created)).1 =
      { s with isModalOpen := false, form := resetFields } := by
    simp [handleOk, hvalid, hmode, createTask, hdd]
  refine ⟨hstate, by rw [hstate], ?_, ⟨dd, hdd, ?_⟩, ?_, ?_⟩
  · simp [handleOk, hvalid, hmode, createTask, hdd, notifications]
  · simp [handleOk, hvalid, hmode, createTask, hdd, requests]
  · simp [handleOk, hvalid]
  · intro serverList
    rw [hstate]
    exact ⟨rfl, fun h => h⟩

/-- C7 at the sample create state with the filled form. -/
theorem handleOk_create_success_witness :
    sampleCreateState.formState = "create" ∧
    validateFields sampleCreateState.form = some sampleForm ∧
    (handleOk sampleCreateState (Response.success taskC)).1 =
      { sampleCreateState with isModalOpen := false, form := resetFields } ∧
    notifications (handleOk sampleCreateState (Response.success taskC)).2 =
      ["Created Tasks Successful"] :=
  ⟨by decide, by decide,
    (handleOk_create_success sampleCreateState sampleForm taskC (by decide) (by decide)).1,
    (handleOk_create_success sampleCreateState sampleForm taskC (by decide) (by decide)).2.2.1⟩

/-- C8 at the sample edit state: a successful update closes the modal, shows
its notification and sends the same payload as create does for the same
values, but it leaves the form fields as they were, where `createTask` resets
them. -/
theorem updateTask_keeps_form_fields :
    (handleOk sampleEditState (Response.success taskA)).1.form = sampleForm ∧
    (handleOk sampleEditState (Response.success taskA)).1.form ≠ resetFields ∧
    (handleOk sampleCreateState (Response.success taskA)).1.form = resetFields ∧
    (updateTask sampleEditState sampleForm (Response.success taskA)).1 =
      { sampleEditState with isModalOpen := false } ∧
    (createTask sampleEditState sampleForm (Response.success taskA)).1 =
      { sampleEditState with isModalOpen := false, form := resetFields } ∧
    requests (updateTask sampleEditState sampleForm (Response.success taskA)).2 =
      [Request.putDetail (some 1) ⟨some "Write report", some "<p>draft</p>", some 10, some 20⟩] ∧
    requests (createTask sampleEditState sampleForm (Response.success taskA)).2 =
      [Request.postTask ⟨some "Write report", some "<p>draft</p>", some 10, some 20⟩] := by
  decide

/-- C9: `onChange` sends status 1 for `true` and 0 for `false`, whatever the
outcome of the call; when the call succeeds exactly one notification is shown,
"Complete Tasks Successful" for `true` and "Uncomplete Tasks Successful" for
`false`, the state is the previous one with the editor modal closed (the task
list is as before), and the status request is the only backend call. -/
theorem onChange_status (s : AppState) (id : Nat) (updated : Task) :
    (∀ r, requests (onChange s id true r).2 = [Request.putStatus id 1]) ∧
    (∀ r, requests (onChange s id false r).2 = [Request.putStatus id 0]) ∧
    notifications (onChange s id true (Response.success updated)).2 =
      ["Complete Tasks Successful"] ∧
    notifications (onChange s id false (Response.success updated)).2 =
      ["Uncomplete Tasks Successful"] ∧
    (∀ checked, (onChange s id checked (Response.success updated)).1 =
        { s with isModalOpen := false } ∧
      (onChange s id checked (Response.success updated)).1.isModalOpen = false ∧
      (onChange s id checked (Response.success updated)).1.tasks = s.tasks) := by
  refine ⟨?_, ?_, ?_, ?_, ?_⟩
  · intro r
    cases r <;> simp [onChange, updateTaskStatus, Number, requests, catchLogs]
  · intro r
    cases r <;> simp [onChange, updateTaskStatus, Number, requests, catchLogs]
  · simp [onChange, updateTaskStatus, Number, notifications]
  · simp [onChange, updateTaskStatus, Number, notifications]
  · intro checked
    simp [onChange, updateTaskStatus]

end TaskManagement
